import Mathlib

/-!
Shallow embedding of the authenticated key-value persistence layer of the
blog-engine repository: the key-value store over a relational backend
(src/db.js), the credential manager and session-token service
(src/unnamed/part_002, the auth utility module), and the auth middleware
decision of the HTTP layer (src/unnamed/part_001, requireAuth).

JavaScript strings are modelled as `List Char`; byte sequences (Node
Buffers) as `List Nat` with each byte < 256.  External Node library
functions used by the source (Buffer base64/hex/utf8 codecs,
JSON.stringify/JSON.parse on the token payload shape, crypto HMAC and
PBKDF2, the pg connection pool) are modelled semantically: the codecs as
executable Lean functions, the cryptographic primitives as function
parameters, and the backend as an explicit state with injectable faults.
-/

/-- JavaScript string, modelled as a list of characters. -/
abbrev Str := List Char

/-- Node Buffer contents: a byte sequence. -/
abbrev Bytes := List Nat

/-- Left brace character, kept out of string literals. -/
def lb : Char := Char.ofNat 123

/-- Right brace character, kept out of string literals. -/
def rb : Char := Char.ofNat 125

/-! ## Hex codec (model of Buffer toString('hex') / Buffer.from(str,'hex')) -/

/-- Lower-case hex digit for a value below 16. -/
def hexDigitCh (n : Nat) : Char := ("0123456789abcdef".data).getD n '0'

/-- Hex value of a character, as Node's hex decoder reads it (upper case
accepted); `none` for a non-hex character. -/
def hexVal (c : Char) : Option Nat :=
  if 48 ≤ c.toNat ∧ c.toNat ≤ 57 then some (c.toNat - 48)
  else if 97 ≤ c.toNat ∧ c.toNat ≤ 102 then some (c.toNat - 87)
  else if 65 ≤ c.toNat ∧ c.toNat ≤ 70 then some (c.toNat - 55)
  else none

/-- Model of Buffer.toString('hex'): two lower-case hex digits per byte. -/
def hexEncode (bs : Bytes) : Str :=
  (bs.map (fun b => [hexDigitCh (b / 16), hexDigitCh (b % 16)])).flatten

/-- Model of Buffer.from(str,'hex'): consume hex digit pairs, stopping at the
first invalid pair or lone trailing digit, as Node does. -/
def hexDecode : Str → Bytes
  | c1 :: c2 :: rest =>
    match hexVal c1, hexVal c2 with
    | some a, some b => (a * 16 + b) :: hexDecode rest
    | _, _ => []
  | _ => []

/-! ## UTF-8 codec (model of Buffer.from(str,'utf8') / toString('utf8')) -/

/-- UTF-8 encoding of one character. -/
def utf8EncodeChar (c : Char) : Bytes :=
  if c.toNat < 128 then [c.toNat]
  else if c.toNat < 2048 then [192 + c.toNat / 64, 128 + c.toNat % 64]
  else if c.toNat < 65536 then
    [224 + c.toNat / 4096, 128 + c.toNat / 64 % 64, 128 + c.toNat % 64]
  else
    [240 + c.toNat / 262144, 128 + c.toNat / 4096 % 64, 128 + c.toNat / 64 % 64, 128 + c.toNat % 64]

/-- Model of Buffer.from(str,'utf8'): UTF-8 bytes of the string. -/
def utf8Encode (s : Str) : Bytes := (s.map utf8EncodeChar).flatten

/-- Decode one UTF-8 two-byte sequence: leading byte and its continuation. -/
def utf8Two (b : Nat) : Bytes → Option (Char × Bytes)
  | b1 :: bs1 =>
    if 128 ≤ b1 ∧ b1 < 192 then some (Char.ofNat ((b - 192) * 64 + (b1 - 128)), bs1) else none
  | [] => none

/-- Decode one UTF-8 three-byte sequence. -/
def utf8Three (b : Nat) : Bytes → Option (Char × Bytes)
  | b1 :: b2 :: bs2 =>
    if (128 ≤ b1 ∧ b1 < 192) ∧ (128 ≤ b2 ∧ b2 < 192) then
      some (Char.ofNat ((b - 224) * 4096 + (b1 - 128) * 64 + (b2 - 128)), bs2)
    else none
  | _ => none

/-- Decode one UTF-8 four-byte sequence. -/
def utf8Four (b : Nat) : Bytes → Option (Char × Bytes)
  | b1 :: b2 :: b3 :: bs3 =>
    if (128 ≤ b1 ∧ b1 < 192) ∧ (128 ≤ b2 ∧ b2 < 192) ∧ (128 ≤ b3 ∧ b3 < 192) then
      some (Char.ofNat ((b - 240) * 262144 + (b1 - 128) * 4096 + (b2 - 128) * 64 + (b3 - 128)),
        bs3)
    else none
  | _ => none

/-- Decode one UTF-8 character from the front of a byte stream, returning it
with the remaining bytes; `none` on a malformed sequence. -/
def utf8DecodeChar1 : Bytes → Option (Char × Bytes)
  | [] => none
  | b :: bs =>
    if b < 128 then some (Char.ofNat b, bs)
    else if b < 192 then none
    else if b < 224 then utf8Two b bs
    else if b < 240 then utf8Three b bs
    else if b < 248 then utf8Four b bs
    else none

/-- Fuelled UTF-8 decoding loop; each step consumes at least one byte, so
fuel equal to the byte count always suffices. -/
def utf8DecodeAux : Nat → Bytes → Option Str
  | _, [] => some []
  | 0, _ :: _ => none
  | fuel + 1, b :: bs =>
    match utf8DecodeChar1 (b :: bs) with
    | some (c, rest) => (utf8DecodeAux fuel rest).map (fun s => c :: s)
    | none => none

/-- Model of Buffer.toString('utf8'), strict variant: decode UTF-8, `none` on
a malformed sequence.  (Node substitutes replacement characters instead of
failing; on every malformed input relevant here the subsequent JSON.parse of
the garbled text throws in the source, so both behaviours end in the same
"invalid" result.) -/
def utf8Decode (bytes : Bytes) : Option Str := utf8DecodeAux bytes.length bytes

/-! ## base64url codec (model of the source's b64url / b64urlDecode, which wrap
Node's Buffer base64 with the URL-safe character replacements and no padding) -/

/-- The base64url alphabet in sextet order. -/
def b64alphabet : Str :=
  "ABCDEFGHIJKLMNOPQRSTUVWXYZabcdefghijklmnopqrstuvwxyz0123456789-_".data

/-- Character for a sextet value below 64. -/
def b64c (n : Nat) : Char := b64alphabet.getD n 'A'

/-- Sextet value of a base64url character; `none` for a character outside the
alphabet (Node's base64 decoder skips such characters). -/
def b64val (c : Char) : Option Nat := b64alphabet.findIdx? (· == c)

/-- Byte stream to sextet stream, three bytes to four sextets, with the short
final group of unpadded base64. -/
def toSextets : Bytes → List Nat
  | [] => []
  | [a] => [a / 4, a % 4 * 16]
  | [a, b] => [a / 4, a % 4 * 16 + b / 16, b % 16 * 4]
  | a :: b :: c :: rest =>
    (a / 4) :: (a % 4 * 16 + b / 16) :: (b % 16 * 4 + c / 64) :: (c % 64) :: toSextets rest

/-- Source function b64url: base64url encoding without padding. -/
def b64url (bs : Bytes) : Str := (toSextets bs).map b64c

/-- Sextet stream back to bytes, inverse of `toSextets` on its image. -/
def fromSextets : List Nat → Bytes
  | a :: b :: c :: d :: rest =>
    (a * 4 + b / 16) :: (b % 16 * 16 + c / 4) :: (c % 4 * 64 + d) :: fromSextets rest
  | [a, b] => [a * 4 + b / 16]
  | [a, b, c] => [a * 4 + b / 16, b % 16 * 16 + c / 4]
  | _ => []

/-- Source function b64urlDecode: restore base64 characters and decode,
skipping characters outside the alphabet as Node's decoder does. -/
def b64urlDecode (s : Str) : Bytes := fromSextets (s.filterMap b64val)

/-! ## Decimal numbers (model of JSON.stringify / JSON.parse on the integer
numbers appearing in the token payload) -/

/-- Decimal digit character for a value below 10. -/
def digitCh (n : Nat) : Char := ("0123456789".data).getD n '0'

/-- Whether a character is a decimal digit. -/
def isDigitCh (c : Char) : Bool := 48 ≤ c.toNat && c.toNat ≤ 57

/-- Numeric value of a digit character. -/
def digitVal (c : Char) : Nat := c.toNat - 48

/-- Fuelled most-significant-first decimal rendering; the fuel is structural
so that concrete renderings compute inside the kernel. -/
def natStrAux : Nat → Nat → Str
  | 0, _ => []
  | fuel + 1, n => if n < 10 then [digitCh n] else natStrAux fuel (n / 10) ++ [digitCh (n % 10)]

/-- Decimal rendering of a natural number, as JSON.stringify writes it. -/
def natStr (n : Nat) : Str := natStrAux (n + 1) n

/-- Accumulated value of a digit string. -/
def digitsVal (s : Str) : Nat := s.foldl (fun a c => a * 10 + digitVal c) 0

/-- Parse a leading run of decimal digits; `none` when there is none. -/
def parseNat (s : Str) : Option (Nat × Str) :=
  let ds := s.takeWhile isDigitCh
  if ds.isEmpty then none else some (digitsVal ds, s.dropWhile isDigitCh)

/-! ## JSON string escaping (model of JSON.stringify / JSON.parse on the
string fields of the token payload) -/

/-- Escape one character as the payload serializer writes it: quote and
backslash get a backslash escape, control characters a \u00XX escape, and
every other character stands for itself. -/
def escChar (c : Char) : Str :=
  if c = '"' ∨ c = '\\' then ['\\', c]
  else if c.toNat < 32 then
    ['\\', 'u', '0', '0', hexDigitCh (c.toNat / 16), hexDigitCh (c.toNat % 16)]
  else [c]

/-- Escaped body of a JSON string. -/
def escStr (s : Str) : Str := (s.map escChar).flatten

/-- JSON string literal: quoted escaped body. -/
def jsonQuote (s : Str) : Str := '"' :: escStr s ++ ['"']

/-- Parse a \uXXXX escape tail: four hex digits to one character. -/
def uEsc : Str → Option (Char × Str)
  | h1 :: h2 :: h3 :: h4 :: rest =>
    match hexVal h1, hexVal h2, hexVal h3, hexVal h4 with
    | some a, some b, some c, some d =>
      some (Char.ofNat (a * 4096 + b * 256 + c * 16 + d), rest)
    | _, _, _, _ => none
  | _ => none

/-- Parse what follows a backslash inside a JSON string: an escaped quote or
backslash, or a \u escape. -/
def escAfterSlash : Str → Option (Char × Str)
  | e :: rest =>
    if e = '"' ∨ e = '\\' then some (e, rest)
    else if e = 'u' then uEsc rest
    else none
  | [] => none

/-- Parse one content character of a JSON string body (the caller has ruled
out the closing quote): either an escape sequence or a plain character. -/
def escStep : Str → Option (Char × Str)
  | [] => none
  | c :: rest => if c = '\\' then escAfterSlash rest else some (c, rest)

/-- Fuelled JSON string body parser; one unit of fuel per content character
or closing quote, so fuel equal to the input length suffices. -/
def parseStrAux : Nat → Str → Option (Str × Str)
  | 0, _ => none
  | _ + 1, [] => none
  | fuel + 1, c :: rest =>
    if c = '"' then some ([], rest)
    else
      match escStep (c :: rest) with
      | some (ch, rest1) => (parseStrAux fuel rest1).map (fun p => (ch :: p.1, p.2))
      | none => none

/-- Parse the body of a JSON string after its opening quote, returning the
content and the remainder after the closing quote; handles the escapes the
serializer emits. -/
def parseStrBody (s : Str) : Option (Str × Str) := parseStrAux s.length s

/-! ## Session token payload (source createSessionToken / verifySessionToken,
src/unnamed/part_002) -/

/-- The token payload object, fields in the order the source writes them. -/
structure Payload where
  sub : Str
  iat : Nat
  exp : Nat
  ver : Nat
deriving DecidableEq

/-- Model of JSON.stringify on the payload object, matching the field order
and number/string rendering of the source. -/
def serPayload (pl : Payload) : Str :=
  lb :: "\"sub\":".data ++ jsonQuote pl.sub
    ++ ",\"iat\":".data ++ natStr pl.iat
    ++ ",\"exp\":".data ++ natStr pl.exp
    ++ ",\"ver\":".data ++ natStr pl.ver ++ [rb]

/-- Consume an expected literal from the front of a string. -/
def expectLit : Str → Str → Option Str
  | [], s => some s
  | _ :: _, [] => none
  | c :: cs, d :: ds => if c = d then expectLit cs ds else none

/-- Model of JSON.parse restricted to the payload object shape the source
serializes; any other input is a parse failure, as is any input JSON.parse
would reject. -/
def parsePayload (s : Str) : Option Payload := do
  let s ← expectLit (lb :: "\"sub\":\"".data) s
  let (sub, s) ← parseStrBody s
  let s ← expectLit ",\"iat\":".data s
  let (iat, s) ← parseNat s
  let s ← expectLit ",\"exp\":".data s
  let (expv, s) ← parseNat s
  let s ← expectLit ",\"ver\":".data s
  let (ver, s) ← parseNat s
  let s ← expectLit [rb] s
  if s.isEmpty then some ⟨sub, iat, expv, ver⟩ else none

/-! ## Token issue and verification (src/unnamed/part_002) -/

/-- The HMAC-SHA256 primitive from Node's crypto module, abstracted: key
bytes and message bytes to digest bytes. -/
abbrev HmacFn := Bytes → Bytes → Bytes

/-- Source function sign: HMAC of the UTF-8 bytes of `data` under `secret`. -/
def sign (hmac : HmacFn) (data : Str) (secret : Bytes) : Bytes :=
  hmac secret (utf8Encode data)

/-- The constant header object string of every issued token. -/
def headerJson : Str := lb :: "\"alg\":\"HS256\",\"typ\":\"JWT\"".data ++ [rb]

/-- base64url of the header, the first token component. -/
def headerB64 : Str := b64url (utf8Encode headerJson)

/-- Effective time-to-live: the source writes ttlMs || 3600000, so a zero
(or missing) ttl falls back to one hour. -/
def ttlOrDefault (ttlMs : Nat) : Nat := if ttlMs = 0 then 3600000 else ttlMs

/-- The payload object built by createSessionToken at time `now`. -/
def issuedPayload (sub : Str) (ttlMs now : Nat) : Payload :=
  ⟨sub, now, now + ttlOrDefault ttlMs, 1⟩

/-- base64url of the serialized payload, the second token component. -/
def payloadB64 (sub : Str) (ttlMs now : Nat) : Str :=
  b64url (utf8Encode (serPayload (issuedPayload sub ttlMs now)))

/-- base64url of the signature, the third token component. -/
def sigB64 (hmac : HmacFn) (sub : Str) (ttlMs now : Nat) (secret : Bytes) : Str :=
  b64url (sign hmac (headerB64 ++ '.' :: payloadB64 sub ttlMs now) secret)

/-- Source function createSessionToken: header, payload and signature
components joined by dots.  Randomness-free; the current time is a
parameter. -/
def createSessionToken (hmac : HmacFn) (sub : Str) (ttlMs now : Nat) (secret : Bytes) : Str :=
  headerB64 ++ '.' :: payloadB64 sub ttlMs now ++ '.' :: sigB64 hmac sub ttlMs now secret

/-- Model of JavaScript String.split('.'): split at every dot, keeping empty
components. -/
def splitDot : Str → List Str
  | [] => [[]]
  | c :: rest =>
    match splitDot rest with
    | [] => [[]]
    | s :: ss => if c = '.' then [] :: s :: ss else (c :: s) :: ss

/-- Source function verifySessionToken: split into three components, compare
the recomputed signature (the source's timingSafeEqual throws on length
mismatch and returns false on content mismatch; both are caught and yield
null, so the comparison collapses to string equality), then JSON.parse the
decoded payload; every failure path returns null, modelled as `none`.  No
expiry field is consulted. -/
def verifySessionToken (hmac : HmacFn) (token : Str) (secret : Bytes) : Option Payload :=
  match splitDot token with
  | [h, p, s] =>
    if s = b64url (sign hmac (h ++ '.' :: p) secret) then
      (utf8Decode (b64urlDecode p)).bind parsePayload
    else none
  | _ => none

/-- The administrative principal identifier hard-coded in the HTTP layer. -/
def adminEmail : Str := "edwardsalexk@gmail.com".data

/-- Decision core of the requireAuth middleware (src/unnamed/part_001): with
the auth cookie value and the session secret in hand, the request is
authorized exactly when the token verifies, its sub is the administrative
principal, and its exp is not below the current time. -/
def requireAuthCheck (hmac : HmacFn) (token : Option Str) (secret : Bytes) (now : Nat) : Bool :=
  match token with
  | none => false
  | some t =>
    match verifySessionToken hmac t secret with
    | none => false
    | some pl => if pl.sub = adminEmail then (if pl.exp < now then false else true) else false

/-! ## JSON-equivalent values (the jsonb column contents; the serialize and
parse at the storage edge are modelled as the identity, jsonb being a
faithful round trip for JSON values) -/

/-- A JSON-equivalent structured value, as stored in the jsonb column. -/
inductive Value where
  | str : Str → Value
  | num : Nat → Value
  | bool : Bool → Value
  | null : Value
  | arr : List Value → Value
  | obj : List (Str × Value) → Value

/-- JavaScript truthiness of a value read back from jsonb. -/
def Value.truthy : Value → Bool
  | .null => false
  | .bool b => b
  | .num n => n != 0
  | .str s => !s.isEmpty
  | .arr _ => true
  | .obj _ => true

/-- JavaScript property access on a value: the named field of an object,
`none` (undefined) otherwise. -/
def Value.field (v : Value) (name : Str) : Option Value :=
  match v with
  | .obj fields => (fields.find? (fun kv => kv.1 == name)).map (fun kv => kv.2)
  | _ => none

/-! ## SQL LIKE (model of the Postgres matcher applied by listKeysByPrefix) -/

/-- Fuelled LIKE matcher: percent matches any sequence, underscore any single
character, a backslash escapes the next pattern character (the Postgres
default escape; a pattern ending in a lone escape raises in Postgres, here it
simply fails to match).  Total fuel pattern+string suffices. -/
def likeMatchAux : Nat → Str → Str → Bool
  | 0, _, _ => false
  | _ + 1, [], s => s.isEmpty
  | fuel + 1, c :: ps, s =>
    if c = '%' then
      likeMatchAux fuel ps s ||
        (match s with
         | [] => false
         | _ :: s1 => likeMatchAux fuel ('%' :: ps) s1)
    else if c = '\\' then
      match ps, s with
      | e :: ps1, d :: s1 => e = d && likeMatchAux fuel ps1 s1
      | _, _ => false
    else
      match s with
      | [] => false
      | d :: s1 => (c = '_' || c = d) && likeMatchAux fuel ps s1

/-- LIKE pattern match of a pattern against a string. -/
def likeMatch (ps s : Str) : Bool := likeMatchAux (ps.length + s.length + 1) ps s

/-- Byte-order comparison of strings, the ORDER BY collation model. -/
def strLe : Str → Str → Bool
  | [], _ => true
  | _ :: _, [] => false
  | a :: as, b :: bs => a.toNat < b.toNat || (a = b && strLe as bs)

/-- Insert into a descending-sorted list of keys. -/
def insertDesc (k : Str) : List Str → List Str
  | [] => [k]
  | x :: xs => if strLe x k then k :: x :: xs else x :: insertDesc k xs

/-- Sort keys in descending order, the ORDER BY key DESC of the source. -/
def sortDesc : List Str → List Str
  | [] => []
  | x :: xs => insertDesc x (sortDesc xs)

/-! ## The relational backend state and the src/db.js operations -/

/-- The fixed owner discriminator of src/db.js. -/
def userIdConst : Str := "edwardsalexk_gmail_com".data

/-- One row of the app_data table: key, jsonb value, and the owner column
content (`none` when the row was written without one). -/
structure Row where
  key : Str
  value : Value
  userId : Option Str

/-- The backing tables, with the schema facts the capability probe reads:
whether app_data and user_logs carry a user_id column. -/
structure DBTables where
  appData : List Row
  userLogs : List (Str × Value × Option Str)
  appDataUserCol : Bool
  userLogsUserCol : Bool

/-- Process-wide state: the backend tables plus the two module-level
capability flags of src/db.js (null until computed). -/
structure ProcState where
  db : DBTables
  hasAppDataUserId : Option Bool
  hasUserLogsUserId : Option Bool

/-- Failure injection for one operation: whether acquiring a pool connection
fails, whether the capability probe query fails, and whether the operation's
own statement fails. -/
structure Faults where
  connectFails : Bool
  probeFails : Bool
  queryFails : Bool

/-- The fault-free operation context. -/
def noFaults : Faults := ⟨false, false, false⟩

/-- Error taxonomy of the embedding: transport failure, query rejection, and
an uncaught JavaScript runtime error. -/
inductive Err where
  | backendUnavailable
  | backendError
  | jsError
deriving DecidableEq

/-- Source function detectCapabilities: on a successful probe both flags are
set from the schema; if the probe fails, each still-null flag is set to
false, a computed flag being kept. -/
def detectCapabilities (f : Faults) (s : ProcState) : ProcState :=
  if f.probeFails then
    { s with hasAppDataUserId := some (s.hasAppDataUserId.getD false),
             hasUserLogsUserId := some (s.hasUserLogsUserId.getD false) }
  else
    { s with hasAppDataUserId := some s.db.appDataUserCol,
             hasUserLogsUserId := some s.db.userLogsUserCol }

/-- Whether a row is hit by a key lookup: key equality, plus the owner
discriminator when the store operates withOwner. -/
def rowMatch (withOwner : Bool) (k : Str) (r : Row) : Bool :=
  r.key == k && (!withOwner || r.userId == some userIdConst)

/-- Upsert semantics of INSERT ... ON CONFLICT DO UPDATE: replace the value
of the first conflicting row in place, or append a fresh row.  (The
server-maintained updated_at column is not modelled.) -/
def upsertRows (withOwner : Bool) (k : Str) (v : Value) : List Row → List Row
  | [] => [⟨k, v, if withOwner then some userIdConst else none⟩]
  | r :: rs =>
    if rowMatch withOwner k r then { r with value := v } :: rs
    else r :: upsertRows withOwner k v rs

/-- Source function saveKV: acquire a connection, run the capability probe if
the app_data flag is still null, then upsert withOwner or unwithOwner according to
the flag.  Backend failures propagate. -/
def saveKV (f : Faults) (s : ProcState) (k : Str) (v : Value) : Except Err ProcState :=
  if f.connectFails then .error .backendUnavailable
  else
    let s := if s.hasAppDataUserId = none then detectCapabilities f s else s
    if f.queryFails then .error .backendError
    else
      let withOwner := s.hasAppDataUserId.getD false
      .ok { s with db := { s.db with appData := upsertRows withOwner k v s.db.appData } }

/-- Source function getKV: the value of the first matching row, null (none)
when no row matches.  Backend failures propagate. -/
def getKV (f : Faults) (s : ProcState) (k : Str) : Except Err (Option Value × ProcState) :=
  if f.connectFails then .error .backendUnavailable
  else
    let s := if s.hasAppDataUserId = none then detectCapabilities f s else s
    if f.queryFails then .error .backendError
    else
      let withOwner := s.hasAppDataUserId.getD false
      .ok ((s.db.appData.find? (rowMatch withOwner k)).map (fun r => r.value), s)

/-- Source function deleteKV: remove every matching row; deleting an absent
key leaves the table unchanged.  Backend failures propagate. -/
def deleteKV (f : Faults) (s : ProcState) (k : Str) : Except Err ProcState :=
  if f.connectFails then .error .backendUnavailable
  else
    let s := if s.hasAppDataUserId = none then detectCapabilities f s else s
    if f.queryFails then .error .backendError
    else
      let withOwner := s.hasAppDataUserId.getD false
      .ok { s with db := { s.db with appData := s.db.appData.filter (fun r => !(rowMatch withOwner k r)) } }

/-- Source function listKeysByPrefix: the keys of the rows whose key matches
the LIKE pattern prefix ++ "%" (the prefix spliced in unescaped), withOwner by
owner when applicable, sorted by descending key.  Backend failures
propagate. -/
def listKeysByPrefix (f : Faults) (s : ProcState) (pfx : Str) : Except Err (List Str × ProcState) :=
  if f.connectFails then .error .backendUnavailable
  else
    let s := if s.hasAppDataUserId = none then detectCapabilities f s else s
    if f.queryFails then .error .backendError
    else
      let withOwner := s.hasAppDataUserId.getD false
      let pattern := pfx ++ ['%']
      let rows := s.db.appData.filter
        (fun r => likeMatch pattern r.key && (!withOwner || r.userId == some userIdConst))
      .ok (sortDesc (rows.map (fun r => r.key)), s)

/-- Source function logEvent: the connection is acquired outside the
try/catch, so a pool acquisition failure propagates to the caller; once the
connection is held, the probe and the insert run inside the try and every
failure there is swallowed. -/
def logEvent (f : Faults) (s : ProcState) (event : Str) (details : Value) : Except Err ProcState :=
  if f.connectFails then .error .backendUnavailable
  else
    let s := if s.hasUserLogsUserId = none then detectCapabilities f s else s
    if f.queryFails then .ok s
    else
      let withOwner := s.hasUserLogsUserId.getD false
      let d := if details.truthy then details else Value.obj []
      .ok { s with db := { s.db with
        userLogs := s.db.userLogs ++ [(event, d, if withOwner then some userIdConst else none)] } }

/-! ## Credential manager (src/unnamed/part_002: ensureAdminUser and
verifyPassword) -/

/-- The fixed well-known key of the Credential Record. -/
def adminKey : Str := "admin:user".data

/-- The PBKDF2 primitive from Node's crypto module, abstracted: password,
salt and iteration count to the derived 32-byte key. -/
abbrev KdfFn := Str → Str → Nat → Bytes

/-- The iteration count hard-coded by ensureAdminUser. -/
def iterConst : Nat := 150000

/-- The Credential Record value ensureAdminUser persists, with the hash as a
lower-case hex string. -/
def credValue (email salt hashHex createdAt : Str) : Value :=
  Value.obj
    [("email".data, .str email),
     ("algo".data, .str "pbkdf2_sha256".data),
     ("iterations".data, .num iterConst),
     ("salt".data, .str salt),
     ("hash".data, .str hashHex),
     ("created_at".data, .str createdAt)]

/-- Whether a stored value's email property strictly equals the given string,
as the source's existing.email === email reads it. -/
def emailMatches (v : Value) (email : Str) : Bool :=
  match v.field "email".data with
  | some (.str e) => e == email
  | _ => false

/-- Source function ensureAdminUser: fetch the record under the fixed key;
if one exists, is truthy and carries the same email, return without writing;
otherwise derive a fresh hash and upsert a new record.  The random salt and
the creation timestamp are parameters. -/
def ensureAdminUser (kdf : KdfFn) (f : Faults) (email password salt createdAt : Str)
    (s : ProcState) : Except Err ProcState := do
  let (existing, s) ← getKV f s adminKey
  match existing with
  | some v =>
    if v.truthy && emailMatches v email then .ok s
    else
      saveKV f s adminKey (credValue email salt (hexEncode (kdf password salt iterConst)) createdAt)
  | none =>
      saveKV f s adminKey (credValue email salt (hexEncode (kdf password salt iterConst)) createdAt)

/-- Source function verifyPassword: fetch the record; a missing or falsy
record or a mismatched email yields false; otherwise the hash is re-derived
with the stored salt and iteration count and compared by timingSafeEqual on
the hex-decoded buffers, which throws (uncaught here) when the lengths
differ, and field access feeds pbkdf2 exactly as the source does (a record
missing its salt, iterations or hash fields makes pbkdf2 throw). -/
def verifyPassword (kdf : KdfFn) (f : Faults) (email password : Str) (s : ProcState) :
    Except Err (Bool × ProcState) := do
  let (u, s) ← getKV f s adminKey
  match u with
  | none => .ok (false, s)
  | some user =>
    if !user.truthy then .ok (false, s)
    else if !emailMatches user email then .ok (false, s)
    else
      match user.field "salt".data, user.field "iterations".data, user.field "hash".data with
      | some (.str salt), some (.num iters), some (.str hashStr) =>
        let a := hexDecode (hexEncode (kdf password salt iters))
        let b := hexDecode hashStr
        if a.length = b.length then .ok (a == b, s) else .error .jsError
      | _, _, _ => .error .jsError

/-- First-match key lookup as getKV performs it, as a pure function of a
state whose capability flag is already computed. -/
def kvFind (withOwner : Bool) (s : ProcState) (k : Str) : Option Value :=
  (s.db.appData.find? (rowMatch withOwner k)).map (fun r => r.value)

/-- Count of the app_data rows a key lookup hits. -/
def rowCount (withOwner : Bool) (s : ProcState) (k : Str) : Nat :=
  (s.db.appData.filter (rowMatch withOwner k)).length

/-! ## Concrete fixtures used to evaluate the model at specific inputs -/

/-- A concrete stand-in for the HMAC primitive. -/
def testHmac : HmacFn := fun _ _ => List.replicate 32 7

/-- A concrete stand-in for the PBKDF2 primitive whose output depends on the
password length, so distinct-length passwords derive distinct keys. -/
def testKdf : KdfFn := fun p _ _ => List.replicate 31 0 ++ [p.length % 256]

/-- A concrete 32-byte secret. -/
def testSecret : Bytes := List.replicate 32 1

/-- A token issued at time 0 with a 10 ms time-to-live: its payload expiry
is 10. -/
def testToken : Str := createSessionToken testHmac adminEmail 10 0 testSecret

/-- The payload carried by `testToken`. -/
def testPayload : Payload := issuedPayload adminEmail 10 0

/-- A concrete salt string. -/
def testSalt : Str := "abcd0123".data

/-- A concrete password. -/
def testPw : Str := "vixen1993".data

/-- The Credential Record `ensureAdminUser` would store for the admin
principal with `testKdf`, `testSalt` and password `testPw`. -/
def testCred : Value :=
  credValue adminEmail testSalt (hexEncode (testKdf testPw testSalt iterConst)) "2024".data

/-- A state whose store holds exactly the test Credential Record, flags
computed, no owner column. -/
def credState : ProcState :=
  ⟨⟨[⟨adminKey, testCred, none⟩], [], false, false⟩, some false, some false⟩

/-- The empty store with both capability flags computed as false. -/
def emptyState : ProcState := ⟨⟨[], [], false, false⟩, some false, some false⟩

/-- The empty store before any capability detection. -/
def freshState : ProcState := ⟨⟨[], [], false, false⟩, none, none⟩

/-- Faults where only the capability probe fails. -/
def probeFail : Faults := ⟨false, true, false⟩

/-- Faults where acquiring a pool connection fails. -/
def connectFail : Faults := ⟨true, false, false⟩

/-- A store holding one row under key "ab", for exercising the LIKE prefix
query. -/
def likeState : ProcState :=
  ⟨⟨[⟨"ab".data, Value.null, none⟩], [], false, false⟩, some false, some false⟩

/-- A second distinct principal identifier. -/
def otherEmail : Str := "someone.else@example.com".data

/-- A Credential Record stored for the other principal. -/
def otherCred : Value :=
  credValue otherEmail testSalt (hexEncode (testKdf testPw testSalt iterConst)) "2023".data

/-- A state whose store holds the other principal's Credential Record under
the fixed key, flags computed, no owner column. -/
def otherCredState : ProcState :=
  ⟨⟨[⟨adminKey, otherCred, none⟩], [], false, false⟩, some false, some false⟩

/-! # Helper lemmas: codecs -/

/-- The upper bound every character's codepoint satisfies. -/
theorem char_toNat_lt (c : Char) : c.toNat < 1114112 := by
  have h := c.valid
  unfold UInt32.isValidChar Nat.isValidChar at h
  have h2 : c.toNat = c.val.toNat := rfl
  rcases h with h | ⟨h1, h1'⟩ <;> omega

/-- Decoding a base64url character produced by the encoder recovers the
sextet. -/
theorem b64val_b64c : ∀ n, n < 64 → b64val (b64c n) = some n := by decide

/-- Every sextet the encoder produces from genuine bytes is below 64. -/
theorem toSextets_lt : ∀ bs : Bytes, (∀ x ∈ bs, x < 256) → ∀ y ∈ toSextets bs, y < 64
  | [], _ => by simp [toSextets]
  | [a], h => by
    have ha : a < 256 := h a (by simp)
    simp [toSextets]; omega
  | [a, b], h => by
    have ha : a < 256 := h a (by simp)
    have hb : b < 256 := h b (by simp)
    simp [toSextets]; omega
  | a :: b :: c :: rest, h => by
    have ha : a < 256 := h a (by simp)
    have hb : b < 256 := h b (by simp)
    have hc : c < 256 := h c (by simp)
    have ih := toSextets_lt rest (fun x hx => h x (by simp [hx]))
    simp only [toSextets, List.mem_cons]
    rintro y (rfl | rfl | rfl | rfl | h4)
    · omega
    · omega
    · omega
    · omega
    · exact ih y h4

/-- Sextet-level decoding inverts sextet-level encoding on genuine bytes. -/
theorem fromSextets_toSextets : ∀ bs : Bytes, (∀ x ∈ bs, x < 256) →
    fromSextets (toSextets bs) = bs
  | [], _ => rfl
  | [a], h => by
    have ha : a < 256 := h a (by simp)
    simp [toSextets, fromSextets]; omega
  | [a, b], h => by
    have ha : a < 256 := h a (by simp)
    have hb : b < 256 := h b (by simp)
    simp [toSextets, fromSextets]
    refine ⟨by omega, by omega⟩
  | a :: b :: c :: rest, h => by
    have ha : a < 256 := h a (by simp)
    have hb : b < 256 := h b (by simp)
    have hc : c < 256 := h c (by simp)
    have ih := fromSextets_toSextets rest (fun x hx => h x (by simp [hx]))
    simp only [toSextets, fromSextets]
    rw [ih]
    refine List.cons_eq_cons.mpr ⟨by omega, List.cons_eq_cons.mpr ⟨by omega, List.cons_eq_cons.mpr ⟨by omega, rfl⟩⟩⟩

/-- Filtering the encoder's characters back through the sextet table is the
identity. -/
theorem filterMap_b64val : ∀ xs : List Nat, (∀ x ∈ xs, x < 64) →
    (xs.map b64c).filterMap b64val = xs
  | [], _ => rfl
  | x :: xs, h => by
    have hx := b64val_b64c x (h x (by simp))
    simp [List.filterMap_cons, hx, filterMap_b64val xs (fun y hy => h y (by simp [hy]))]

/-- base64url decoding inverts base64url encoding on genuine bytes. -/
theorem b64url_roundtrip (bs : Bytes) (h : ∀ x ∈ bs, x < 256) :
    b64urlDecode (b64url bs) = bs := by
  unfold b64urlDecode b64url
  rw [filterMap_b64val _ (toSextets_lt bs h), fromSextets_toSextets bs h]

/-- Decoding a hex digit produced by the encoder recovers its value. -/
theorem hexVal_hexDigitCh : ∀ d, d < 16 → hexVal (hexDigitCh d) = some d := by decide

/-- Hex decoding inverts hex encoding on genuine bytes. -/
theorem hexDecode_hexEncode : ∀ bs : Bytes, (∀ x ∈ bs, x < 256) →
    hexDecode (hexEncode bs) = bs
  | [], _ => rfl
  | b :: bs, h => by
    have hb : b < 256 := h b (by simp)
    have h1 := hexVal_hexDigitCh (b / 16) (by omega)
    have h2 := hexVal_hexDigitCh (b % 16) (by omega)
    have ih := hexDecode_hexEncode bs (fun x hx => h x (by simp [hx]))
    simp only [hexEncode, List.map_cons, List.flatten_cons, List.cons_append, List.nil_append]
    simp only [hexDecode, h1, h2, hexEncode] at ih ⊢
    rw [ih]
    congr 1
    omega

/-- The length of a hex encoding is twice the byte count. -/
theorem hexEncode_length (bs : Bytes) : (hexEncode bs).length = 2 * bs.length := by
  induction bs with
  | nil => rfl
  | cons b bs ih =>
    simp only [hexEncode, List.map_cons, List.flatten_cons, List.length_append] at ih ⊢
    simp [ih, hexEncode]
    omega

/-- Every byte of a UTF-8 encoded character is a genuine byte. -/
theorem utf8EncodeChar_lt (c : Char) : ∀ b ∈ utf8EncodeChar c, b < 256 := by
  have hc := char_toNat_lt c
  unfold utf8EncodeChar
  split_ifs <;> simp <;> omega

/-- Every byte of a UTF-8 encoded string is a genuine byte. -/
theorem utf8Encode_lt (s : Str) : ∀ b ∈ utf8Encode s, b < 256 := by
  induction s with
  | nil => simp [utf8Encode]
  | cons c s ih =>
    intro b hb
    simp only [utf8Encode, List.map_cons, List.flatten_cons, List.mem_append] at hb
    rcases hb with hb | hb
    · exact utf8EncodeChar_lt c b hb
    · exact ih b (by simpa [utf8Encode] using hb)

/-- The encoder never produces an empty byte sequence for a character. -/
theorem utf8EncodeChar_ne_nil (c : Char) : utf8EncodeChar c ≠ [] := by
  unfold utf8EncodeChar
  split_ifs <;> simp

/-- A string is no longer than its UTF-8 encoding. -/
theorem utf8Encode_length_ge (s : Str) : s.length ≤ (utf8Encode s).length := by
  induction s with
  | nil => simp [utf8Encode]
  | cons c s ih =>
    have h1 : 0 < (utf8EncodeChar c).length :=
      List.length_pos.mpr (utf8EncodeChar_ne_nil c)
    simp only [utf8Encode, List.map_cons, List.flatten_cons, List.length_append,
      List.length_cons] at ih ⊢
    omega

/-- Decoding one character off the encoding of that character succeeds and
returns the remainder untouched. -/
theorem utf8DecodeChar1_encode (c : Char) (rest : Bytes) :
    utf8DecodeChar1 (utf8EncodeChar c ++ rest) = some (c, rest) := by
  have hc := char_toNat_lt c
  unfold utf8EncodeChar
  by_cases h1 : c.toNat < 128
  · simp only [if_pos h1, List.cons_append, List.nil_append, utf8DecodeChar1]
    rw [Char.ofNat_toNat]
  · by_cases h2 : c.toNat < 2048
    · simp only [if_neg h1, if_pos h2, List.cons_append, List.nil_append, utf8DecodeChar1]
      rw [if_neg (by omega), if_neg (by omega), if_pos (by omega)]
      simp only [utf8Two]
      rw [if_pos (by constructor <;> omega)]
      have he : (192 + c.toNat / 64 - 192) * 64 + (128 + c.toNat % 64 - 128) = c.toNat := by omega
      rw [he, Char.ofNat_toNat]
    · by_cases h3 : c.toNat < 65536
      · simp only [if_neg h1, if_neg h2, if_pos h3, List.cons_append, List.nil_append,
          utf8DecodeChar1]
        rw [if_neg (by omega), if_neg (by omega), if_neg (by omega), if_pos (by omega)]
        simp only [utf8Three]
        rw [if_pos (by refine ⟨⟨by omega, by omega⟩, by omega, by omega⟩)]
        have he : (224 + c.toNat / 4096 - 224) * 4096 + (128 + c.toNat / 64 % 64 - 128) * 64
            + (128 + c.toNat % 64 - 128) = c.toNat := by omega
        rw [he, Char.ofNat_toNat]
      · simp only [if_neg h1, if_neg h2, if_neg h3, List.cons_append, List.nil_append,
          utf8DecodeChar1]
        rw [if_neg (by omega), if_neg (by omega), if_neg (by omega), if_neg (by omega),
          if_pos (by omega)]
        simp only [utf8Four]
        rw [if_pos (by refine ⟨⟨by omega, by omega⟩, ⟨by omega, by omega⟩, by omega, by omega⟩)]
        have he : (240 + c.toNat / 262144 - 240) * 262144 + (128 + c.toNat / 4096 % 64 - 128) * 4096
            + (128 + c.toNat / 64 % 64 - 128) * 64 + (128 + c.toNat % 64 - 128) = c.toNat := by
          omega
        rw [he, Char.ofNat_toNat]

/-- With enough fuel, the decoding loop inverts the encoder. -/
theorem utf8DecodeAux_encode : ∀ (s : Str) (fuel : Nat), s.length ≤ fuel →
    utf8DecodeAux fuel (utf8Encode s) = some s
  | [], fuel, _ => by
    have h : utf8Encode [] = [] := rfl
    rw [h]
    cases fuel <;> rfl
  | c :: s, fuel, h => by
    obtain ⟨f, rfl⟩ : ∃ f, fuel = f + 1 := by
      refine ⟨fuel - 1, ?_⟩
      simp only [List.length_cons] at h
      omega
    have hstep : utf8Encode (c :: s) = utf8EncodeChar c ++ utf8Encode s := by
      simp [utf8Encode]
    obtain ⟨b, bs, hbs⟩ : ∃ b bs, utf8EncodeChar c = b :: bs := by
      cases hE : utf8EncodeChar c with
      | nil => exact absurd hE (utf8EncodeChar_ne_nil c)
      | cons b bs => exact ⟨b, bs, rfl⟩
    have hs : s.length ≤ f := by
      simp only [List.length_cons] at h
      omega
    rw [hstep, hbs, List.cons_append, utf8DecodeAux]
    rw [← List.cons_append, ← hbs, utf8DecodeChar1_encode]
    dsimp only
    rw [utf8DecodeAux_encode s f hs]
    rfl

/-- UTF-8 decoding inverts UTF-8 encoding. -/
theorem utf8_roundtrip (s : Str) : utf8Decode (utf8Encode s) = some s := by
  unfold utf8Decode
  exact utf8DecodeAux_encode s (utf8Encode s).length
    (le_trans (utf8Encode_length_ge s) (le_refl _))

/-! # Helper lemmas: decimal rendering and JSON strings -/

/-- Digit characters are digits. -/
theorem isDigitCh_digitCh : ∀ d, d < 10 → isDigitCh (digitCh d) = true := by decide

/-- Digit characters carry their value. -/
theorem digitVal_digitCh : ∀ d, d < 10 → digitVal (digitCh d) = d := by decide

/-- Every character of a decimal rendering is a digit. -/
theorem natStrAux_digits : ∀ fuel n, n < fuel → ∀ c ∈ natStrAux fuel n, isDigitCh c = true
  | 0, _, h => by omega
  | fuel + 1, n, h => by
    by_cases h10 : n < 10
    · simp only [natStrAux, if_pos h10]
      intro c hc
      simp only [List.mem_singleton] at hc
      subst hc
      exact isDigitCh_digitCh n h10
    · simp only [natStrAux, if_neg h10]
      intro c hc
      rcases List.mem_append.mp hc with hc | hc
      · exact natStrAux_digits fuel (n / 10) (by omega) c hc
      · simp only [List.mem_singleton] at hc
        subst hc
        exact isDigitCh_digitCh _ (Nat.mod_lt _ (by omega))

/-- Appending one character multiplies the accumulated digit value by ten. -/
theorem digitsVal_append_single (xs : Str) (c : Char) :
    digitsVal (xs ++ [c]) = digitsVal xs * 10 + digitVal c := by
  simp [digitsVal, List.foldl_append]

/-- The accumulated value of a decimal rendering is the number itself. -/
theorem digitsVal_natStrAux : ∀ fuel n, n < fuel → digitsVal (natStrAux fuel n) = n
  | 0, _, h => by omega
  | fuel + 1, n, h => by
    by_cases h10 : n < 10
    · simp only [natStrAux, if_pos h10, digitsVal, List.foldl_cons, List.foldl_nil]
      rw [digitVal_digitCh n h10]
      omega
    · simp only [natStrAux, if_neg h10]
      rw [digitsVal_append_single, digitsVal_natStrAux fuel (n / 10) (by omega),
        digitVal_digitCh _ (Nat.mod_lt _ (by omega))]
      omega

/-- A decimal rendering is never empty. -/
theorem natStrAux_ne_nil : ∀ fuel n, n < fuel → natStrAux fuel n ≠ []
  | 0, _, h => by omega
  | fuel + 1, n, _ => by
    by_cases h10 : n < 10
    · simp only [natStrAux, if_pos h10]
      simp
    · simp only [natStrAux, if_neg h10]
      simp

/-- takeWhile over a run satisfying the predicate passes through it. -/
theorem takeWhile_append_all {p : Char → Bool} :
    ∀ (xs ys : Str), (∀ x ∈ xs, p x = true) →
    (xs ++ ys).takeWhile p = xs ++ ys.takeWhile p
  | [], _, _ => by simp
  | x :: xs, ys, h => by
    have hx : p x = true := h x (by simp)
    have ih := takeWhile_append_all xs ys (fun y hy => h y (by simp [hy]))
    simp only [List.cons_append, List.takeWhile_cons, hx, if_true, ih]

/-- dropWhile over a run satisfying the predicate discards it. -/
theorem dropWhile_append_all {p : Char → Bool} :
    ∀ (xs ys : Str), (∀ x ∈ xs, p x = true) →
    (xs ++ ys).dropWhile p = ys.dropWhile p
  | [], _, _ => by simp
  | x :: xs, ys, h => by
    have hx : p x = true := h x (by simp)
    simp only [List.cons_append, List.dropWhile_cons, hx, if_true]
    exact dropWhile_append_all xs ys (fun y hy => h y (by simp [hy]))

/-- Parsing a number off a decimal rendering followed by a non-digit yields
the number and leaves the rest. -/
theorem parseNat_natStr (n : Nat) (c : Char) (rest : Str) (hc : isDigitCh c = false) :
    parseNat (natStr n ++ c :: rest) = some (n, c :: rest) := by
  have hdig : ∀ x ∈ natStr n, isDigitCh x = true := natStrAux_digits (n + 1) n (by omega)
  have htake : (natStr n ++ c :: rest).takeWhile isDigitCh = natStr n := by
    rw [takeWhile_append_all _ _ hdig, List.takeWhile_cons, hc]
    simp
  have hdrop : (natStr n ++ c :: rest).dropWhile isDigitCh = c :: rest := by
    rw [dropWhile_append_all _ _ hdig, List.dropWhile_cons, hc]
    simp
  have hne : natStr n ≠ [] := natStrAux_ne_nil (n + 1) n (by omega)
  have hval : digitsVal (natStr n) = n := digitsVal_natStrAux (n + 1) n (by omega)
  unfold parseNat
  rw [htake, hdrop]
  simp [List.isEmpty_iff, hne, hval]

/-- One escape step inverts the serializer's escaping of one character. -/
theorem escStep_escChar (c : Char) (rest : Str) : escStep (escChar c ++ rest) = some (c, rest) := by
  unfold escChar
  by_cases h1 : c = '"' ∨ c = '\\'
  · simp only [if_pos h1, List.cons_append, List.nil_append, escStep, if_true]
    simp only [escAfterSlash]
    rw [if_pos h1]
  · by_cases h2 : c.toNat < 32
    · simp only [if_neg h1, if_pos h2, List.cons_append, List.nil_append, escStep, if_true]
      simp only [escAfterSlash]
      rw [if_neg (by decide)]
      simp only [if_true, uEsc]
      have e1 : hexVal '0' = some 0 := by decide
      have e2 := hexVal_hexDigitCh (c.toNat / 16) (by omega)
      have e3 := hexVal_hexDigitCh (c.toNat % 16) (by omega)
      rw [e1, e2, e3]
      dsimp only
      have he : 0 * 4096 + 0 * 256 + c.toNat / 16 * 16 + c.toNat % 16 = c.toNat := by omega
      rw [he, Char.ofNat_toNat]
    · have hc1 : ¬(c = '\\') := fun hq => h1 (Or.inr hq)
      simp only [if_neg h1, if_neg h2, List.cons_append, List.nil_append, escStep]
      rw [if_neg hc1]

/-- An escaped character starts with something other than a quote. -/
theorem escChar_head_ne_quote (c : Char) : ∃ b bs, escChar c = b :: bs ∧ b ≠ '"' := by
  unfold escChar
  by_cases h1 : c = '"' ∨ c = '\\'
  · exact ⟨'\\', [c], by rw [if_pos h1], by decide⟩
  · by_cases h2 : c.toNat < 32
    · refine ⟨'\\', _, by rw [if_neg h1, if_pos h2], by decide⟩
    · refine ⟨c, [], by rw [if_neg h1, if_neg h2], fun hq => h1 (Or.inl hq)⟩

/-- A string is no longer than its escaped body. -/
theorem escStr_length_ge (s : Str) : s.length ≤ (escStr s).length := by
  induction s with
  | nil => simp [escStr]
  | cons c s ih =>
    have h1 : 0 < (escChar c).length := by
      obtain ⟨b, bs, hbs, _⟩ := escChar_head_ne_quote c
      rw [hbs]
      simp
    simp only [escStr, List.map_cons, List.flatten_cons, List.length_append,
      List.length_cons] at ih ⊢
    omega

/-- With enough fuel, the string body parser inverts the escaper and stops at
the closing quote. -/
theorem parseStrAux_escStr : ∀ (s : Str) (fuel : Nat) (rest : Str), s.length + 1 ≤ fuel →
    parseStrAux fuel (escStr s ++ '"' :: rest) = some (s, rest)
  | [], fuel, rest, h => by
    obtain ⟨f, rfl⟩ : ∃ f, fuel = f + 1 := ⟨fuel - 1, by omega⟩
    have hE : escStr [] = [] := rfl
    rw [hE, List.nil_append, parseStrAux]
    rw [if_pos rfl]
  | c :: s, fuel, rest, h => by
    obtain ⟨f, rfl⟩ : ∃ f, fuel = f + 1 := ⟨fuel - 1, by omega⟩
    have hE : escStr (c :: s) = escChar c ++ escStr s := by simp [escStr]
    obtain ⟨b, bs, hbs, hbq⟩ := escChar_head_ne_quote c
    have hs : s.length + 1 ≤ f := by
      simp only [List.length_cons] at h
      omega
    rw [hE, List.append_assoc, hbs, List.cons_append, parseStrAux]
    rw [if_neg hbq]
    rw [← List.cons_append, ← hbs, escStep_escChar]
    dsimp only
    rw [parseStrAux_escStr s f rest hs]
    rfl

/-- The string body parser inverts the escaper. -/
theorem parseStrBody_escStr (s rest : Str) :
    parseStrBody (escStr s ++ '"' :: rest) = some (s, rest) := by
  unfold parseStrBody
  apply parseStrAux_escStr
  have h := escStr_length_ge s
  simp only [List.length_append, List.length_cons]
  omega

/-- Consuming an expected literal prefix succeeds and leaves the rest. -/
theorem expectLit_append : ∀ (lit rest : Str), expectLit lit (lit ++ rest) = some rest
  | [], _ => rfl
  | c :: cs, rest => by
    simp only [List.cons_append, expectLit, if_pos rfl]
    exact expectLit_append cs rest

theorem parsePayload_serPayload (pl : Payload) : parsePayload (serPayload pl) = some pl := by
  obtain ⟨sub, iat, expv, ver⟩ := pl
  have hser : serPayload ⟨sub, iat, expv, ver⟩ =
      (lb :: "\"sub\":\"".data) ++ (escStr sub ++ '"' :: (",\"iat\":".data ++ (natStr iat ++
        (",\"exp\":".data ++ (natStr expv ++ (",\"ver\":".data ++ (natStr ver ++ [rb]))))))) := by
    have hlit : (lb :: "\"sub\":\"".data : Str) = lb :: "\"sub\":".data ++ ['"'] := by decide
    rw [hlit]
    simp [serPayload, jsonQuote, List.append_assoc]
  rw [hser]
  unfold parsePayload
  rw [expectLit_append]
  simp only [Option.bind_eq_bind, Option.some_bind]
  rw [parseStrBody_escStr]
  simp only [Option.some_bind]
  rw [expectLit_append]
  simp only [Option.some_bind]
  simp only [List.cons_append]
  rw [parseNat_natStr iat ',' _ (by decide)]
  simp only [Option.some_bind]
  simp only [expectLit, if_true, List.nil_append, Option.some_bind]
  rw [parseNat_natStr expv ',' _ (by decide)]
  simp only [Option.some_bind]
  simp only [expectLit, if_true, List.nil_append, Option.some_bind]
  rw [parseNat_natStr ver rb [] (by decide)]
  simp only [Option.some_bind]
  simp only [expectLit, if_true, List.nil_append, Option.some_bind]
  rfl

/-! # Helper lemmas: token structure -/

/-- The split of a string is never the empty list. -/
theorem splitDot_ne_nil : ∀ s : Str, splitDot s ≠ []
  | [] => by simp [splitDot]
  | c :: rest => by
    simp only [splitDot]
    cases h : splitDot rest with
    | nil => exact absurd h (splitDot_ne_nil rest)
    | cons s ss =>
      by_cases hc : c = '.'
      · simp [hc]
      · simp [hc]

/-- Splitting a dot-free string yields that string alone. -/
theorem splitDot_no_dot : ∀ s : Str, '.' ∉ s → splitDot s = [s]
  | [], _ => rfl
  | c :: rest, h => by
    have hc : ¬(c = '.') := fun hq => h (by simp [hq])
    have ih := splitDot_no_dot rest (fun hm => h (by simp [hm]))
    simp only [splitDot, ih]
    rw [if_neg hc]

/-- Splitting past a dot-free head peels it off at the first dot. -/
theorem splitDot_append : ∀ (a : Str) (rest : Str), '.' ∉ a →
    splitDot (a ++ '.' :: rest) = a :: splitDot rest
  | [], rest, _ => by
    simp only [List.nil_append, splitDot]
    cases h : splitDot rest with
    | nil => exact absurd h (splitDot_ne_nil rest)
    | cons s ss => simp
  | c :: a, rest, h => by
    have hc : ¬(c = '.') := fun hq => h (by simp [hq])
    have ih := splitDot_append a rest (fun hm => h (by simp [hm]))
    simp only [List.cons_append, splitDot, List.append_eq, ih]
    rw [if_neg hc]

/-- Every character the base64url encoder emits lies in its alphabet or is
the padding default, and in particular is never a dot. -/
theorem b64c_ne_dot (n : Nat) : b64c n ≠ '.' := by
  unfold b64c
  by_cases h : n < b64alphabet.length
  · have hm : b64alphabet.getD n 'A' ∈ b64alphabet := by
      rw [List.getD_eq_getElem?_getD, List.getElem?_eq_getElem h]
      simp only [Option.getD_some]
      exact List.getElem_mem h
    intro hq
    rw [hq] at hm
    revert hm
    decide
  · rw [List.getD_eq_getElem?_getD, List.getElem?_eq_none (by omega)]
    decide

/-- A base64url encoding never contains a dot. -/
theorem b64url_no_dot (bs : Bytes) : '.' ∉ b64url bs := by
  unfold b64url
  intro hm
  obtain ⟨n, _, hn⟩ := List.mem_map.mp hm
  exact b64c_ne_dot n hn

/-- The header component contains no dot. -/
theorem headerB64_no_dot : '.' ∉ headerB64 := b64url_no_dot _

/-- The payload component contains no dot. -/
theorem payloadB64_no_dot (sub : Str) (ttlMs now : Nat) : '.' ∉ payloadB64 sub ttlMs now :=
  b64url_no_dot _

/-- The signature component contains no dot. -/
theorem sigB64_no_dot (hmac : HmacFn) (sub : Str) (ttlMs now : Nat) (secret : Bytes) :
    '.' ∉ sigB64 hmac sub ttlMs now secret :=
  b64url_no_dot _

/-- A token built by createSessionToken splits into exactly its three
components. -/
theorem splitDot_token (hmac : HmacFn) (sub : Str) (ttlMs now : Nat) (secret : Bytes) :
    splitDot (createSessionToken hmac sub ttlMs now secret)
      = [headerB64, payloadB64 sub ttlMs now, sigB64 hmac sub ttlMs now secret] := by
  have hshape : createSessionToken hmac sub ttlMs now secret
      = headerB64 ++ '.' :: (payloadB64 sub ttlMs now
        ++ '.' :: sigB64 hmac sub ttlMs now secret) := by
    unfold createSessionToken
    simp [List.append_assoc]
  rw [hshape, splitDot_append _ _ headerB64_no_dot,
    splitDot_append _ _ (payloadB64_no_dot sub ttlMs now),
    splitDot_no_dot _ (sigB64_no_dot hmac sub ttlMs now secret)]

/-- Verification accepts a freshly issued token and returns the issued
payload. -/
theorem verify_create (hmac : HmacFn) (sub : Str) (ttlMs now : Nat) (secret : Bytes) :
    verifySessionToken hmac (createSessionToken hmac sub ttlMs now secret) secret
      = some (issuedPayload sub ttlMs now) := by
  unfold verifySessionToken
  rw [splitDot_token]
  dsimp only
  rw [if_pos (by rw [sigB64])]
  unfold payloadB64
  rw [b64url_roundtrip _ (utf8Encode_lt _), utf8_roundtrip]
  simp only [Option.some_bind]
  exact parsePayload_serPayload _

/-- Altering one character of the signature component makes verification
return null. -/
theorem verify_altered_sig (hmac : HmacFn) (sub : Str) (ttlMs now : Nat) (secret : Bytes)
    (i : Nat) (c : Char) (hi : i < (sigB64 hmac sub ttlMs now secret).length)
    (hc : c ≠ (sigB64 hmac sub ttlMs now secret).get ⟨i, hi⟩) :
    verifySessionToken hmac (headerB64 ++ '.' :: (payloadB64 sub ttlMs now
      ++ '.' :: (sigB64 hmac sub ttlMs now secret).set i c)) secret = none := by
  by_cases hdot : c = '.'
  · subst hdot
    unfold verifySessionToken
    rw [List.set_eq_take_append_cons_drop, if_pos hi]
    have htk : '.' ∉ (sigB64 hmac sub ttlMs now secret).take i :=
      fun hm => sigB64_no_dot hmac sub ttlMs now secret (List.mem_of_mem_take hm)
    have hdr : '.' ∉ (sigB64 hmac sub ttlMs now secret).drop (i + 1) :=
      fun hm => sigB64_no_dot hmac sub ttlMs now secret (List.mem_of_mem_drop hm)
    rw [splitDot_append _ _ headerB64_no_dot,
      splitDot_append _ _ (payloadB64_no_dot sub ttlMs now),
      splitDot_append _ _ htk, splitDot_no_dot _ hdr]
  · have hnd : '.' ∉ (sigB64 hmac sub ttlMs now secret).set i c := by
      intro hm
      rcases List.mem_or_eq_of_mem_set hm with hm | hm
      · exact sigB64_no_dot hmac sub ttlMs now secret hm
      · exact hdot hm.symm
    unfold verifySessionToken
    rw [splitDot_append _ _ headerB64_no_dot,
      splitDot_append _ _ (payloadB64_no_dot sub ttlMs now),
      splitDot_no_dot _ hnd]
    dsimp only
    rw [if_neg ?_]
    intro heq
    rw [show b64url (sign hmac (headerB64 ++ '.' :: payloadB64 sub ttlMs now) secret)
      = sigB64 hmac sub ttlMs now secret from rfl] at heq
    have h2 := congrArg (fun l : Str => l[i]?) heq
    have h3 : ((sigB64 hmac sub ttlMs now secret).set i c)[i]? = some c := by
      rw [List.getElem?_set_self']
      simp [List.getElem?_eq_getElem hi]
    have h4 : (sigB64 hmac sub ttlMs now secret)[i]?
        = some ((sigB64 hmac sub ttlMs now secret).get ⟨i, hi⟩) := by
      rw [List.getElem?_eq_getElem hi]
      simp [List.get_eq_getElem]
    simp only [h3, h4] at h2
    exact hc (Option.some.inj h2)

/-! # Claim theorems: session tokens -/

/-- Claim C4: a token issued by createSessionToken with any principal, ttl
and secret is accepted by verifySessionToken under the same secret and
yields a payload whose sub equals the principal; and every single-character
alteration of the token's signature component is rejected. -/
theorem c4_issue_verify_roundtrip_and_signature_tamper (hmac : HmacFn) (sub : Str)
    (ttlMs now : Nat) (secret : Bytes) :
    (verifySessionToken hmac (createSessionToken hmac sub ttlMs now secret) secret
        = some (issuedPayload sub ttlMs now)
      ∧ (issuedPayload sub ttlMs now).sub = sub)
    ∧ ∀ (i : Nat) (c : Char) (hi : i < (sigB64 hmac sub ttlMs now secret).length),
        c ≠ (sigB64 hmac sub ttlMs now secret).get ⟨i, hi⟩ →
        verifySessionToken hmac (headerB64 ++ '.' :: (payloadB64 sub ttlMs now
          ++ '.' :: (sigB64 hmac sub ttlMs now secret).set i c)) secret = none := by
  refine ⟨⟨verify_create hmac sub ttlMs now secret, rfl⟩, ?_⟩
  intro i c hi hc
  exact verify_altered_sig hmac sub ttlMs now secret i c hi hc

/-- Witness for C4 at concrete inputs: the concrete issued token verifies to
its payload, and the same token with the first signature character replaced
by 'x' is rejected. -/
theorem c4_witness :
    verifySessionToken testHmac (createSessionToken testHmac adminEmail 10 0 testSecret)
        testSecret = some (issuedPayload adminEmail 10 0)
    ∧ verifySessionToken testHmac (headerB64 ++ '.' :: (payloadB64 adminEmail 10 0
        ++ '.' :: (sigB64 testHmac adminEmail 10 0 testSecret).set 0 'x')) testSecret = none :=
  ⟨(c4_issue_verify_roundtrip_and_signature_tamper testHmac adminEmail 10 0 testSecret).1.1,
    (c4_issue_verify_roundtrip_and_signature_tamper testHmac adminEmail 10 0 testSecret).2
      0 'x' (by decide) (by decide)⟩

/-- Claim C9: verifySessionToken is a total function returning an optional
payload — the embedding of a function that never raises — and it returns a
payload only for an input that splits into exactly three dot-separated
components whose third component equals the recomputed signature and whose
second component decodes and parses as a payload object; on every other
input (wrong component count, signature mismatch including length mismatch,
undecodable or unparsable payload) it returns the invalid indicator none. -/
theorem c9_verify_total_rejects_malformed (hmac : HmacFn) (token : Str) (secret : Bytes) :
    verifySessionToken hmac token secret = none ∨
    ∃ h p s pl, splitDot token = [h, p, s]
      ∧ s = b64url (sign hmac (h ++ '.' :: p) secret)
      ∧ (utf8Decode (b64urlDecode p)).bind parsePayload = some pl
      ∧ verifySessionToken hmac token secret = some pl := by
  unfold verifySessionToken
  rcases hsp : splitDot token with _ | ⟨h, _ | ⟨p, _ | ⟨s, _ | ⟨x, xs⟩⟩⟩⟩
  · left; rfl
  · left; rfl
  · left; rfl
  · by_cases hseq : s = b64url (sign hmac (h ++ '.' :: p) secret)
    · cases hparse : (utf8Decode (b64urlDecode p)).bind parsePayload with
      | none =>
        left
        dsimp only
        rw [if_pos hseq, hparse]
      | some pl =>
        right
        refine ⟨h, p, s, pl, rfl, hseq, hparse, ?_⟩
        dsimp only
        rw [if_pos hseq, hparse]
    · left
      dsimp only
      rw [if_neg hseq]
  · left; rfl

set_option maxRecDepth 10000 in
/-- Claim C1 counterexample: a correctly signed token whose expiry (10) is
not strictly in the future at a verification time of 100 is nevertheless
accepted by verifySessionToken, which returns its payload; the function
consults no clock at all, so the claim's expiry condition cannot hold of
it. -/
theorem c1_counterexample :
    verifySessionToken testHmac testToken testSecret = some testPayload
    ∧ testPayload.exp < 100 := by
  constructor
  · decide
  · decide

/-- Claim C1 (amended): verifySessionToken accepts on structure and
signature alone, regardless of expiry; the expiry check is performed by the
caller requireAuth, which authorizes a request exactly when the token
verifies, its sub is the administrative principal, and the current time does
not exceed its exp (so a token whose exp equals the current instant is still
accepted, a non-strict comparison). -/
theorem c1_requireAuth_enforces_expiry (hmac : HmacFn) (token : Str) (secret : Bytes)
    (now : Nat) :
    requireAuthCheck hmac (some token) secret now = true ↔
      ∃ pl, verifySessionToken hmac token secret = some pl
        ∧ pl.sub = adminEmail ∧ now ≤ pl.exp := by
  cases hv : verifySessionToken hmac token secret with
  | none =>
    simp only [requireAuthCheck, hv]
    simp
  | some pl =>
    simp only [requireAuthCheck, hv]
    by_cases hsub : pl.sub = adminEmail
    · by_cases hexp : pl.exp < now
      · rw [if_pos hsub, if_pos hexp]
        constructor
        · intro hfalse
          cases hfalse
        · rintro ⟨pl', he, _, hx⟩
          injection he with he
          subst he
          omega
      · rw [if_pos hsub, if_neg hexp]
        constructor
        · intro _
          exact ⟨pl, rfl, hsub, by omega⟩
        · intro _
          rfl
    · rw [if_neg hsub]
      constructor
      · intro hfalse
        cases hfalse
      · rintro ⟨pl', he, hs, _⟩
        injection he with he
        subst he
        exact absurd hs hsub

/-! # Helper lemmas: the key-value store -/

/-- getKV without faults and with the capability flag computed is the pure
first-match lookup. -/
theorem getKV_det (s : ProcState) (b : Bool) (hb : s.hasAppDataUserId = some b) (k : Str) :
    getKV noFaults s k = .ok (kvFind b s k, s) := by
  unfold getKV noFaults kvFind
  simp [hb]

/-- saveKV without faults and with the capability flag computed performs the
pure upsert. -/
theorem saveKV_det (s : ProcState) (b : Bool) (hb : s.hasAppDataUserId = some b)
    (k : Str) (v : Value) :
    saveKV noFaults s k v
      = .ok { s with db := { s.db with appData := upsertRows b k v s.db.appData } } := by
  unfold saveKV noFaults
  simp [hb]

/-- The fresh row the upsert inserts is hit by the corresponding lookup. -/
theorem rowMatch_new (w : Bool) (k : Str) (v : Value) :
    rowMatch w k ⟨k, v, if w then some userIdConst else none⟩ = true := by
  cases w <;> simp [rowMatch]

/-- A lookup after an upsert of the same key finds the fresh value. -/
theorem find?_upsertRows (w : Bool) (k : Str) (v : Value) :
    ∀ rows, ((upsertRows w k v rows).find? (rowMatch w k)).map (fun r => r.value) = some v
  | [] => by
    simp only [upsertRows, List.find?]
    rw [rowMatch_new]
    rfl
  | r :: rs => by
    by_cases hm : rowMatch w k r = true
    · have hm2 : rowMatch w k { r with value := v } = true := hm
      simp only [upsertRows, if_pos hm, List.find?, hm2]
      rfl
    · have hm2 : rowMatch w k r = false := by
        revert hm
        cases rowMatch w k r <;> simp
      simp only [upsertRows, if_neg hm, List.find?, hm2]
      exact find?_upsertRows w k v rs

/-- An upsert into rows none of which conflict is an append. -/
theorem upsertRows_no_match (w : Bool) (k : Str) (v : Value) :
    ∀ rows, (∀ r ∈ rows, rowMatch w k r = false) →
    upsertRows w k v rows = rows ++ [⟨k, v, if w then some userIdConst else none⟩]
  | [], _ => rfl
  | r :: rs, h => by
    have hr : rowMatch w k r = false := h r (by simp)
    simp only [upsertRows, hr, Bool.false_eq_true, if_false, List.cons_append]
    rw [upsertRows_no_match w k v rs (fun x hx => h x (by simp [hx]))]

/-- An upsert leaves exactly one matching row when at most one matched
before. -/
theorem filter_upsertRows (w : Bool) (k : Str) (v : Value) :
    ∀ rows, ((rows.filter (rowMatch w k)).length ≤ 1) →
    ((upsertRows w k v rows).filter (rowMatch w k)).length = 1
  | [], _ => by
    simp only [upsertRows, List.filter]
    rw [rowMatch_new]
    rfl
  | r :: rs, h => by
    by_cases hm : rowMatch w k r = true
    · have hm2 : rowMatch w k { r with value := v } = true := hm
      simp only [upsertRows, if_pos hm, List.filter, hm2, List.length_cons] at h ⊢
      simp only [hm] at h
      simp only [List.length_cons] at h
      have hz : (rs.filter (rowMatch w k)).length = 0 := by omega
      omega
    · have hm2 : rowMatch w k r = false := by
        revert hm
        cases rowMatch w k r <;> simp
      simp only [upsertRows, if_neg hm, List.filter, hm2] at h ⊢
      exact filter_upsertRows w k v rs h

/-- deleteKV without faults and with the capability flag computed removes
the matching rows. -/
theorem deleteKV_det (s : ProcState) (b : Bool) (hb : s.hasAppDataUserId = some b) (k : Str) :
    deleteKV noFaults s k
      = .ok { s with db := { s.db with
          appData := s.db.appData.filter (fun r => !(rowMatch b k r)) } } := by
  unfold deleteKV noFaults
  simp [hb]

/-- listKeysByPrefix without faults and with the capability flag computed
returns the LIKE-filtered keys sorted descending. -/
theorem listKeysByPrefix_det (s : ProcState) (b : Bool) (hb : s.hasAppDataUserId = some b)
    (pfx : Str) :
    listKeysByPrefix noFaults s pfx
      = .ok (sortDesc ((s.db.appData.filter
          (fun r => likeMatch (pfx ++ ['%']) r.key
            && (!b || r.userId == some userIdConst))).map (fun r => r.key)), s) := by
  unfold listKeysByPrefix noFaults
  simp [hb]

/-! # Claim theorems: the key-value store -/

/-- Claim C7: putting v1 then v2 under the same key and reading it back
yields v2, and exactly one record is stored for the key (the upsert
overwrites in place), provided the store held at most one record for the key
to begin with, as the backend's uniqueness constraint guarantees. -/
theorem c7_put_put_get_upsert (s0 : ProcState) (b : Bool) (k : Str) (v1 v2 : Value)
    (hb : s0.hasAppDataUserId = some b)
    (huniq : (s0.db.appData.filter (rowMatch b k)).length ≤ 1) :
    ∃ s1 s2, saveKV noFaults s0 k v1 = .ok s1
      ∧ saveKV noFaults s1 k v2 = .ok s2
      ∧ getKV noFaults s2 k = .ok (some v2, s2)
      ∧ (s2.db.appData.filter (rowMatch b k)).length = 1 := by
  refine ⟨{ s0 with db := { s0.db with appData := upsertRows b k v1 s0.db.appData } },
    { s0 with db := { s0.db with
        appData := upsertRows b k v2 (upsertRows b k v1 s0.db.appData) } },
    saveKV_det s0 b hb k v1,
    saveKV_det { s0 with db := { s0.db with
      appData := upsertRows b k v1 s0.db.appData } } b hb k v2, ?_, ?_⟩
  · rw [getKV_det { s0 with db := { s0.db with
      appData := upsertRows b k v2 (upsertRows b k v1 s0.db.appData) } } b hb k]
    have hfind : kvFind b { s0 with db := { s0.db with
        appData := upsertRows b k v2 (upsertRows b k v1 s0.db.appData) } } k = some v2 := by
      unfold kvFind
      exact find?_upsertRows b k v2 _
    rw [hfind]
  · exact filter_upsertRows b k v2 _ (by rw [filter_upsertRows b k v1 _ huniq])

/-- Witness for C7 at concrete inputs: two writes to one key on the empty
store, then a read returning the second value with a single stored row. -/
theorem c7_witness :
    ∃ s1 s2, saveKV noFaults emptyState ['k'] (Value.num 1) = .ok s1
      ∧ saveKV noFaults s1 ['k'] (Value.num 2) = .ok s2
      ∧ getKV noFaults s2 ['k'] = .ok (some (Value.num 2), s2)
      ∧ (s2.db.appData.filter (rowMatch false ['k'])).length = 1 :=
  c7_put_put_get_upsert emptyState false ['k'] (Value.num 1) (Value.num 2) rfl
    (by simp [emptyState])

/-- Claim C2 (code-bug exhibit): logEvent acquires its pool connection
outside the try/catch, so a failure to acquire a connection propagates a
BackendUnavailable error to the caller instead of being absorbed; every
failure after the connection is held is swallowed, shown by the second
conjunct where the insert statement itself fails yet logEvent returns
normally. -/
theorem c2_logEvent_raises_on_connect_failure :
    logEvent connectFail emptyState "login".data (Value.obj [])
        = .error Err.backendUnavailable
    ∧ ∀ (e : Str) (d : Value), logEvent ⟨false, false, true⟩ emptyState e d = .ok emptyState := by
  exact ⟨rfl, fun e d => rfl⟩

/-- Claim C3 (code-bug exhibit): listKeysByPrefix splices the caller's
prefix into the LIKE pattern unescaped, so the underscore in the prefix
"a_" acts as a single-character wildcard and the stored key "ab" is
returned even though it does not literally start with "a_". -/
theorem c3_listKeys_wildcard_injection :
    listKeysByPrefix noFaults likeState ['a', '_'] = .ok ([['a', 'b']], likeState)
    ∧ (['a', '_'] : Str).isPrefixOf ['a', 'b'] = false := by
  constructor
  · rfl
  · decide

/-- Claim C6: when the capability flags are undetermined and the probe
itself fails during the first store operation, both flags are set to false
rather than left null, the triggering put succeeds running unscoped, and
get, delete and list all still succeed against the resulting state. -/
theorem c6_capability_probe_fail_soft (s0 : ProcState)
    (h1 : s0.hasAppDataUserId = none) (h2 : s0.hasUserLogsUserId = none)
    (k k2 pfx : Str) (v : Value) :
    ∃ s1, saveKV probeFail s0 k v = .ok s1
      ∧ s1.hasAppDataUserId = some false
      ∧ s1.hasUserLogsUserId = some false
      ∧ getKV noFaults s1 k = .ok (some v, s1)
      ∧ (∃ s2, deleteKV noFaults s1 k2 = .ok s2)
      ∧ (∃ l, listKeysByPrefix noFaults s1 pfx = .ok (l, s1)) := by
  have hsave : saveKV probeFail s0 k v
      = .ok { s0 with
          db := { s0.db with appData := upsertRows false k v s0.db.appData },
          hasAppDataUserId := some false,
          hasUserLogsUserId := some false } := by
    unfold saveKV probeFail detectCapabilities
    simp [h1, h2]
  refine ⟨_, hsave, rfl, rfl, ?_, ⟨_, deleteKV_det _ false rfl k2⟩,
    ⟨_, listKeysByPrefix_det _ false rfl pfx⟩⟩
  rw [getKV_det _ false rfl k]
  have hfind : kvFind false { s0 with
      db := { s0.db with appData := upsertRows false k v s0.db.appData },
      hasAppDataUserId := some false,
      hasUserLogsUserId := some false } k = some v := by
    unfold kvFind
    exact find?_upsertRows false k v _
  rw [hfind]

/-- Witness for C6 at concrete inputs: the probe fails on the first write to
the fresh store, yet the write and all subsequent operations succeed
unscoped. -/
theorem c6_witness :
    ∃ s1, saveKV probeFail freshState ['a'] (Value.num 7) = .ok s1
      ∧ s1.hasAppDataUserId = some false
      ∧ s1.hasUserLogsUserId = some false
      ∧ getKV noFaults s1 ['a'] = .ok (some (Value.num 7), s1)
      ∧ (∃ s2, deleteKV noFaults s1 ['b'] = .ok s2)
      ∧ (∃ l, listKeysByPrefix noFaults s1 ['a'] = .ok (l, s1)) :=
  c6_capability_probe_fail_soft freshState rfl rfl ['a'] ['b'] ['a'] (Value.num 7)

/-! # Helper lemmas: the credential manager -/

/-- The stored Credential Record object is truthy. -/
theorem credValue_truthy (e s h t : Str) : (credValue e s h t).truthy = true := rfl

/-- The stored Credential Record's email matches the identifier it was
created with. -/
theorem emailMatches_credValue (e s h t : Str) : emailMatches (credValue e s h t) e = true := by
  simp [emailMatches, credValue, Value.field, List.find?]

/-- Salt field of the Credential Record. -/
theorem credValue_salt (e s h t : Str) :
    (credValue e s h t).field "salt".data = some (.str s) := by
  simp [credValue, Value.field, List.find?]

/-- Iterations field of the Credential Record. -/
theorem credValue_iterations (e s h t : Str) :
    (credValue e s h t).field "iterations".data = some (.num iterConst) := by
  simp [credValue, Value.field, List.find?]

/-- Hash field of the Credential Record. -/
theorem credValue_hash (e s h t : Str) :
    (credValue e s h t).field "hash".data = some (.str h) := by
  simp [credValue, Value.field, List.find?]

/-- verifyPassword against a stored Credential Record with a well-formed
32-byte hash re-derives with the stored salt and iteration count and returns
the comparison result as a boolean, never an error. -/
theorem verifyPassword_credValue (kdf : KdfFn)
    (hk : ∀ p s i, (kdf p s i).length = 32 ∧ ∀ x ∈ kdf p s i, x < 256)
    (st : ProcState) (b : Bool) (hb : st.hasAppDataUserId = some b)
    (e salt t : Str) (hw : Bytes)
    (hfind : kvFind b st adminKey = some (credValue e salt (hexEncode hw) t))
    (hwlen : hw.length = 32) (hwlt : ∀ x ∈ hw, x < 256) (p : Str) :
    verifyPassword kdf noFaults e p st = .ok ((kdf p salt iterConst == hw), st) := by
  have hd1 : hexDecode (hexEncode (kdf p salt iterConst)) = kdf p salt iterConst :=
    hexDecode_hexEncode _ (hk p salt iterConst).2
  have hd2 : hexDecode (hexEncode hw) = hw := hexDecode_hexEncode _ hwlt
  unfold verifyPassword
  rw [getKV_det st b hb adminKey, hfind]
  dsimp only [Except.bind, Bind.bind]
  rw [credValue_truthy, emailMatches_credValue]
  simp only [Bool.not_true, Bool.false_eq_true, if_false]
  rw [credValue_salt, credValue_iterations, credValue_hash]
  dsimp only
  rw [hd1, hd2]
  rw [if_pos (by rw [(hk p salt iterConst).1, hwlen])]

/-- ensureAdminUser seeds a fresh record when the fixed key is vacant. -/
theorem ensureAdminUser_absent (kdf : KdfFn) (s0 : ProcState) (b : Bool)
    (hb : s0.hasAppDataUserId = some b)
    (hnone : kvFind b s0 adminKey = none) (e p salt t : Str) :
    ensureAdminUser kdf noFaults e p salt t s0
      = .ok { s0 with db := { s0.db with
          appData := upsertRows b adminKey
            (credValue e salt (hexEncode (kdf p salt iterConst)) t) s0.db.appData } } := by
  unfold ensureAdminUser
  rw [getKV_det s0 b hb adminKey, hnone]
  dsimp only [Except.bind, Bind.bind]
  exact saveKV_det s0 b hb adminKey _

/-- ensureAdminUser is a no-op when the stored record is truthy and carries
the same email. -/
theorem ensureAdminUser_same (kdf : KdfFn) (s0 : ProcState) (b : Bool)
    (hb : s0.hasAppDataUserId = some b) (v : Value)
    (hfind : kvFind b s0 adminKey = some v)
    (ht : v.truthy = true) (he : emailMatches v e = true) (p salt t : Str) :
    ensureAdminUser kdf noFaults e p salt t s0 = .ok s0 := by
  unfold ensureAdminUser
  rw [getKV_det s0 b hb adminKey, hfind]
  dsimp only [Except.bind, Bind.bind]
  rw [ht, he]
  rfl

/-- ensureAdminUser overwrites via upsert when the stored record does not
carry the same email. -/
theorem ensureAdminUser_overwrite (kdf : KdfFn) (s0 : ProcState) (b : Bool)
    (hb : s0.hasAppDataUserId = some b) (v : Value)
    (hfind : kvFind b s0 adminKey = some v)
    (he : emailMatches v e = false) (p salt t : Str) :
    ensureAdminUser kdf noFaults e p salt t s0
      = .ok { s0 with db := { s0.db with
          appData := upsertRows b adminKey
            (credValue e salt (hexEncode (kdf p salt iterConst)) t) s0.db.appData } } := by
  unfold ensureAdminUser
  rw [getKV_det s0 b hb adminKey, hfind]
  dsimp only [Except.bind, Bind.bind]
  rw [he]
  simp only [Bool.and_false, Bool.false_eq_true, if_false]
  exact saveKV_det s0 b hb adminKey _

/-! # Claim theorems: the credential manager -/

/-- Claim C5: seeding the same identifier and password twice (each call with
its own random salt and timestamp) creates exactly one Credential Record
under the fixed key, the second call returns success leaving the state - and
hence the first call's record, salt, hash and iteration count - completely
unmodified, and verifyPassword accepts the password against the resulting
state, which is the state after either call. -/
theorem c5_ensureAdminUser_idempotent (kdf : KdfFn)
    (hk : ∀ p s i, (kdf p s i).length = 32 ∧ ∀ x ∈ kdf p s i, x < 256)
    (s0 : ProcState) (b : Bool) (hb : s0.hasAppDataUserId = some b)
    (hnone : ∀ r ∈ s0.db.appData, (r.key == adminKey) = false)
    (email password salt1 t1 salt2 t2 : Str) :
    ∃ s1, ensureAdminUser kdf noFaults email password salt1 t1 s0 = .ok s1
      ∧ ensureAdminUser kdf noFaults email password salt2 t2 s1 = .ok s1
      ∧ (s1.db.appData.filter (fun r => r.key == adminKey)).length = 1
      ∧ verifyPassword kdf noFaults email password s1 = .ok (true, s1) := by
  have hall : ∀ r ∈ s0.db.appData, rowMatch b adminKey r = false := by
    intro r hr
    unfold rowMatch
    rw [hnone r hr]
    rfl
  have hkv0 : kvFind b s0 adminKey = none := by
    unfold kvFind
    rw [List.find?_eq_none.mpr (by intro r hr; rw [hall r hr]; simp)]
    rfl
  refine ⟨{ s0 with db := { s0.db with
      appData := upsertRows b adminKey
        (credValue email salt1 (hexEncode (kdf password salt1 iterConst)) t1) s0.db.appData } },
    ensureAdminUser_absent kdf s0 b hb hkv0 email password salt1 t1, ?_, ?_, ?_⟩
  · exact ensureAdminUser_same kdf
      { s0 with db := { s0.db with
          appData := upsertRows b adminKey
            (credValue email salt1 (hexEncode (kdf password salt1 iterConst)) t1)
            s0.db.appData } }
      b hb _ (by unfold kvFind; exact find?_upsertRows b adminKey _ s0.db.appData)
      (credValue_truthy _ _ _ _) (emailMatches_credValue _ _ _ _) password salt2 t2
  · rw [upsertRows_no_match b adminKey _ s0.db.appData hall]
    rw [List.filter_append]
    rw [List.filter_eq_nil_iff.mpr (by intro r hr; rw [hnone r hr]; simp)]
    simp
  · have hres := verifyPassword_credValue kdf hk
      { s0 with db := { s0.db with
          appData := upsertRows b adminKey
            (credValue email salt1 (hexEncode (kdf password salt1 iterConst)) t1)
            s0.db.appData } }
      b hb email salt1 t1
      (kdf password salt1 iterConst)
      (by unfold kvFind; exact find?_upsertRows b adminKey _ s0.db.appData)
      (hk password salt1 iterConst).1 (hk password salt1 iterConst).2 password
    rw [hres]
    simp

/-- Witness for C5 at concrete inputs: seeding twice on the empty store. -/
theorem c5_witness :
    ∃ s1, ensureAdminUser testKdf noFaults adminEmail testPw testSalt "2024".data emptyState
        = .ok s1
      ∧ ensureAdminUser testKdf noFaults adminEmail testPw "ffff".data "2025".data s1 = .ok s1
      ∧ (s1.db.appData.filter (fun r => r.key == adminKey)).length = 1
      ∧ verifyPassword testKdf noFaults adminEmail testPw s1 = .ok (true, s1) :=
  c5_ensureAdminUser_idempotent testKdf
    (fun p s i => ⟨by simp [testKdf], by
      intro x hx
      simp [testKdf] at hx
      rcases hx with hx | hx <;> omega⟩)
    emptyState false rfl (by intro r hr; simp [emptyState] at hr)
    adminEmail testPw testSalt "2024".data "ffff".data "2025".data

/-- Claim C8: verifyPassword returns a normal false - never an error - when
the Credential Record is absent, when the stored identifier differs from the
supplied one, and when the supplied password fails to re-derive the stored
hash of a well-formed record. -/
theorem c8_verifyPassword_negative_cases (kdf : KdfFn)
    (hk : ∀ p s i, (kdf p s i).length = 32 ∧ ∀ x ∈ kdf p s i, x < 256)
    (st : ProcState) (b : Bool) (hb : st.hasAppDataUserId = some b) (e pw : Str)
    (h : kvFind b st adminKey = none
      ∨ (∃ v, kvFind b st adminKey = some v ∧ emailMatches v e = false)
      ∨ (∃ salt t hw, kvFind b st adminKey = some (credValue e salt (hexEncode hw) t)
          ∧ hw.length = 32 ∧ (∀ x ∈ hw, x < 256) ∧ kdf pw salt iterConst ≠ hw)) :
    verifyPassword kdf noFaults e pw st = .ok (false, st) := by
  rcases h with h | ⟨v, hv, he⟩ | ⟨salt, t, hw, hfind, hwlen, hwlt, hne⟩
  · unfold verifyPassword
    rw [getKV_det st b hb adminKey, h]
    rfl
  · unfold verifyPassword
    rw [getKV_det st b hb adminKey, hv]
    dsimp only [Except.bind, Bind.bind]
    by_cases ht : v.truthy = true
    · rw [ht, he]
      simp
    · have ht2 : v.truthy = false := by
        revert ht
        cases v.truthy <;> simp
      rw [ht2]
      simp
  · rw [verifyPassword_credValue kdf hk st b hb e salt t hw hfind hwlen hwlt pw]
    rw [beq_eq_false_iff_ne.mpr hne]

/-- Witness for C8 at concrete inputs: a wrong password against the stored
test Credential Record is rejected with false. -/
theorem c8_witness :
    verifyPassword testKdf noFaults adminEmail "wrong".data credState
      = .ok (false, credState) :=
  c8_verifyPassword_negative_cases testKdf
    (fun p s i => ⟨by simp [testKdf], by
      intro x hx
      simp [testKdf] at hx
      rcases hx with hx | hx <;> omega⟩)
    credState false rfl adminEmail "wrong".data
    (Or.inr (Or.inr ⟨testSalt, "2024".data, testKdf testPw testSalt iterConst, rfl,
      by decide, by decide, by decide⟩))

/-- Claim C10: when a Credential Record exists under the fixed key but its
stored identifier differs from the one passed in, ensureAdminUser succeeds,
derives a fresh salt and hash for the new identifier and overwrites the
record in place via upsert: the lookup afterwards returns the new record and
the row count for the key is exactly one. -/
theorem c10_ensureAdminUser_overwrites_different_identifier (kdf : KdfFn)
    (s0 : ProcState) (b : Bool) (hb : s0.hasAppDataUserId = some b)
    (e p salt t : Str) (old : Value)
    (hfind : kvFind b s0 adminKey = some old)
    (he : emailMatches old e = false)
    (huniq : (s0.db.appData.filter (rowMatch b adminKey)).length ≤ 1) :
    ∃ s1, ensureAdminUser kdf noFaults e p salt t s0 = .ok s1
      ∧ kvFind b s1 adminKey = some (credValue e salt (hexEncode (kdf p salt iterConst)) t)
      ∧ (s1.db.appData.filter (rowMatch b adminKey)).length = 1 := by
  refine ⟨_, ensureAdminUser_overwrite kdf s0 b hb old hfind he p salt t, ?_, ?_⟩
  · unfold kvFind
    exact find?_upsertRows b adminKey _ s0.db.appData
  · exact filter_upsertRows b adminKey _ s0.db.appData huniq

/-- Witness for C10 at concrete inputs: seeding the admin identifier over a
record stored for a different principal replaces it. -/
theorem c10_witness :
    ∃ s1, ensureAdminUser testKdf noFaults adminEmail testPw testSalt "2026".data
        otherCredState = .ok s1
      ∧ kvFind false s1 adminKey
          = some (credValue adminEmail testSalt
              (hexEncode (testKdf testPw testSalt iterConst)) "2026".data)
      ∧ (s1.db.appData.filter (rowMatch false adminKey)).length = 1 :=
  c10_ensureAdminUser_overwrites_different_identifier testKdf otherCredState false rfl
    adminEmail testPw testSalt "2026".data otherCred rfl (by decide) (by decide)
